import Mathlib

/-!
Shallow embedding of the registry/resolution framework in `src/helpers/models.py`
(py-cad): normalized-key dictionaries, inheritance merging (`InheritanceMixin`),
the freezable dimension record (`BasicDimensionData`), the builder registry and
solid cache (`BuilderABC`), and the assembler part-map resolution and assembly
pipeline (`AssemblerABC`).

Python dictionaries are modelled as association lists with Python update
semantics (update-in-place keeps the original position, new keys are appended).
Opaque geometry objects (`cq.Workplane` / `cq.Solid`) are modelled by an
allocation counter: every invocation of a build function returns a fresh
object identifier, so object identity (`is` in Python) becomes equality of
identifiers.  Fallible operations return `Except CadError`.
-/

namespace PyCad

/-- Python attribute/metadata values as far as the framework inspects them:
booleans (the freeze flag), numbers (dimensions) and strings (names, colors). -/
inductive Val where
  | bool : Bool → Val
  | num : Int → Val
  | str : String → Val
deriving DecidableEq, Repr

/-- Python truthiness for `Val` (used by `if part_map:`, `getattr(..., False)`,
`if not self._has_basic_dimensions`). -/
def truthy : Val → Bool
  | .bool b => b
  | .num n => n != 0
  | .str s => s != ""

/-- The exceptions the embedded code can raise, structured so that theorems can
talk about which identifiers an error names. -/
inductive CadError where
  /-- `AttributeError` raised by `BasicDimensionData.__setattr__` on a frozen
  existing attribute. -/
  | immutable
  /-- `TypeError` with a message. -/
  | typeError : String → CadError
  /-- `ValueError` with a message (e.g. `freeze_existing_attributes` before
  basic dimensions, `build_part` on an unknown part type). -/
  | valueError : String → CadError
  /-- `KeyError` naming the (normalized) missing key. -/
  | keyError : String → CadError
  /-- `AttributeError` for an attribute that does not exist. -/
  | attributeError : String → CadError
  /-- `ValueError` from `AssemblerABC._validate_resolved_part_map`, naming the
  class and the invalid part-type values. -/
  | invalidPartMapValues : String → List String → CadError
  /-- `TypeError` from `AssemblerABC.__init_subclass__` when `BuilderClass` is
  missing or not a `BuilderABC` subclass, naming the class. -/
  | missingBuilderClass : String → CadError
deriving DecidableEq, Repr

/-- First-success choice on `Option`, used to state lookup-precedence facts. -/
def orO {α : Type} : Option α → Option α → Option α
  | some a, _ => some a
  | none, b => b

/-- Projection: the payload of a successful `Except` computation. -/
def exOk {ε α : Type} : Except ε α → Option α
  | .ok a => some a
  | .error _ => none

/-- Projection: the payload of a failed `Except` computation. -/
def exErr {ε α : Type} : Except ε α → Option ε
  | .ok _ => none
  | .error e => some e

/-! ### Association lists with Python `dict` semantics -/

/-- `d[key]` lookup on a Python dict modelled as an association list:
the first matching key wins (a dict never holds duplicate keys). -/
def lookupA {α : Type} : List (String × α) → String → Option α
  | [], _ => none
  | (k, v) :: rest, key => if k = key then some v else lookupA rest key

/-- `d[key] = val` with Python semantics: an existing key keeps its position,
a new key is appended at the end. -/
def insertA {α : Type} : List (String × α) → String → α → List (String × α)
  | [], key, val => [(key, val)]
  | (k, v) :: rest, key, val =>
    if k = key then (k, val) :: rest else (k, v) :: insertA rest key val

/-- `del d[key]`: removes the (unique) entry with the given key. -/
def removeA {α : Type} : List (String × α) → String → List (String × α)
  | [], _ => []
  | (k, v) :: rest, key => if k = key then rest else (k, v) :: removeA rest key

/-- `d.keys()` in insertion order. -/
def keysOf {α : Type} (d : List (String × α)) : List String :=
  d.map Prod.fst

/-- `d.values()` in insertion order. -/
def valuesOf {α : Type} (d : List (String × α)) : List α :=
  d.map Prod.snd

/-! ### Key normalization (`NormalizedDict`) -/

/-- ASCII whitespace as stripped by Python `str.strip()` (the framework only
uses ASCII identifiers). -/
def isSpaceChar (c : Char) : Bool :=
  c = ' ' || c = '\t' || c = '\n' || c = '\r'

/-- `str.strip()` on a character list. -/
def stripChars (l : List Char) : List Char :=
  ((l.dropWhile isSpaceChar).reverse.dropWhile isSpaceChar).reverse

/-- `NormalizedDict.normalize_item` on a string key:
`key.strip().lower()` (ASCII). -/
def normKey (s : String) : String :=
  String.mk ((stripChars s.data).map Char.toLower)

/-- A `NormalizedDict` value: an association list whose keys have been
normalized on every write. -/
abbrev NDict (α : Type) := List (String × α)

/-- `NormalizedDict.__getitem__` / `.get`: normalize the key, then look up. -/
def ndGet {α : Type} (d : NDict α) (k : String) : Option α :=
  lookupA d (normKey k)

/-- `NormalizedDict.__setitem__`: normalize the key, then store. -/
def ndSet {α : Type} (d : NDict α) (k : String) (v : α) : NDict α :=
  insertA d (normKey k) v

/-- `NormalizedDict(mapping)`: insert every item, normalizing keys. -/
def ndFromList {α : Type} (l : List (String × α)) : NDict α :=
  l.foldl (fun acc p => ndSet acc p.1 p.2) []

/-- Python `a | b` on dicts: start from `a`, write every item of `b` in order,
so `b`'s entries win on key collision. -/
def ndUnion {α : Type} (a b : NDict α) : NDict α :=
  b.foldl (fun acc p => insertA acc p.1 p.2) a

/-! ### `InheritanceMixin.get_parent_items`

The input list holds, for each class in `cls.__mro__[1:]` in order (most
specific first), the value `getattr(base, attr_name, None)` — `none` when the
ancestor does not provide the attribute. -/

/-- The accumulator loop of `get_parent_items`: at each ancestor holding a
value, merge it below the accumulated (younger) items via `older | parent_items`
(younger wins). -/
def getParentItemsAux {α : Type} (acc : Option (NDict α)) :
    List (Option (NDict α)) → Option (NDict α)
  | [] => acc
  | none :: rest => getParentItemsAux acc rest
  | some older :: rest =>
    match acc with
    | none => getParentItemsAux (some older) rest
    | some cur => getParentItemsAux (some (ndUnion older cur)) rest

/-- `InheritanceMixin.get_parent_items`: `None` when no ancestor defines the
attribute, otherwise the younger-wins merge across the MRO. -/
def getParentItems {α : Type} (l : List (Option (NDict α))) : Option (NDict α) :=
  getParentItemsAux none l

/-! ### `BasicDimensionData`

The instance `__dict__` is a Python dict from attribute name to value; the
freeze flag `_freeze_existing_attributes` and the `_has_basic_dimensions`
marker live inside it, exactly as in CPython. -/

/-- The instance `__dict__` of a `BasicDimensionData`. -/
abbrev Dict := List (String × Val)

/-- The name of the freeze flag attribute. -/
def flagKey : String := "_freeze_existing_attributes"

/-- `getattr(self, "_freeze_existing_attributes", False)` with truthiness. -/
def isFrozen (d : Dict) : Bool :=
  match lookupA d flagKey with
  | some v => truthy v
  | none => false

/-- `BasicDimensionData.__setattr__`: on a frozen record, assigning an existing
attribute other than the freeze flag itself raises `AttributeError`; everything
else is stored. -/
def setattrD (d : Dict) (name : String) (v : Val) : Except CadError Dict :=
  if isFrozen d && name != flagKey && (lookupA d name).isSome then
    .error .immutable
  else
    .ok (insertA d name v)

/-- `BasicDimensionData.update(**extra_dimensions)`: assign each item in order
through `__setattr__`, stopping at the first error. -/
def updateD (d : Dict) : List (String × Val) → Except CadError Dict
  | [] => .ok d
  | (k, v) :: rest =>
    match setattrD d k v with
    | .error e => .error e
    | .ok d1 => updateD d1 rest

/-- The `basic_dimensions` argument as Python type-checks it: either some
`Sequence` (tuple, list, even a string) with its elements, or a non-sequence
value. -/
inductive PyArg where
  | seq : List Val → PyArg
  | nonSeq : Val → PyArg
deriving DecidableEq, Repr

/-- The `TypeError` message of `set_basic_dimensions`. -/
def sbdMsg : String :=
  "basic_dimensions must be a Sequence (tuple, list, ...) of three numbers (x_len, y_len, z_len)."

/-- `BasicDimensionData.set_basic_dimensions`: reject anything that is not a
sequence of length exactly 3 (element types are not inspected), then assign the
extra dimensions, then the three basic dimensions, then mark
`_has_basic_dimensions`. -/
def setBasicDimensions (d : Dict) (arg : PyArg) (extras : List (String × Val)) :
    Except CadError Dict :=
  match arg with
  | .nonSeq _ => .error (.typeError sbdMsg)
  | .seq xs =>
    match xs with
    | [x, y, z] =>
      match updateD d extras with
      | .error e => .error e
      | .ok d1 =>
        match updateD d1 [("x_len", x), ("y_len", y), ("z_len", z)] with
        | .error e => .error e
        | .ok d2 => setattrD d2 "_has_basic_dimensions" (.bool true)
    | _ => .error (.typeError sbdMsg)

/-- `BasicDimensionData.freeze_existing_attributes`: requires basic dimensions
to have been set, then raises the freeze flag (always allowed by
`__setattr__`). -/
def freezeExistingAttributes (d : Dict) : Except CadError Dict :=
  match lookupA d "_has_basic_dimensions" with
  | none => .error (.attributeError "_has_basic_dimensions")
  | some v =>
    if truthy v then
      setattrD d flagKey (.bool true)
    else
      .error (.valueError "Cannot freeze existing attributes before setting basic dimensions.")

/-- `BasicDimensionData.__init__` followed by `_post_init` (the `_PostInitMeta`
hook): set the flag to `False`, set dimensions or mark them missing, record the
temporary `_freeze` attribute, and, when `freeze` holds, freeze and delete the
temporary attribute. -/
def bddInit (basic : Option PyArg) (freeze : Bool) (extras : List (String × Val)) :
    Except CadError Dict := do
  let d0 ← setattrD [] flagKey (.bool false)
  let d1 ←
    match basic with
    | some arg => setBasicDimensions d0 arg extras
    | none =>
      match setattrD d0 "_has_basic_dimensions" (.bool false) with
      | .error e => .error e
      | .ok dA => updateD dA extras
  let d2 ← setattrD d1 "_freeze" (.bool freeze)
  if freeze then do
    let d3 ← freezeExistingAttributes d2
    .ok (removeA d3 "_freeze")
  else
    .ok d2

/-! ### `BuilderABC`

A builder class is summarized by its resolved `_builder_map`, a
`NormalizedDict` from part-type identifier to a registered build function
(build functions are opaque; they are identified by a number).  Solids are
opaque objects: a world counter hands out a fresh identifier at every
invocation of a build function, so Python object identity becomes identifier
equality. -/

/-- A builder instance: only the per-instance `_solid_cache` created in
`BuilderABC.__init__`. -/
structure BuilderInst where
  cache : NDict Nat
deriving DecidableEq, Repr

/-- `BuilderABC.__init__`: a fresh, empty per-instance cache. -/
def builderInit : BuilderInst := ⟨[]⟩

/-- `BuilderABC.__init_subclass__`: merge the parents' `_builder_map`
(`get_parent_items`, empty when none found) with the class's own registered
build methods (keys normalized by `NormalizedDict`), the subtype's methods
winning on collision.  Never raises. -/
def defineBuilder (parentMaps : List (Option (NDict Nat)))
    (registered : List (String × Nat)) : Except CadError (NDict Nat) :=
  let parent := (getParentItems parentMaps).getD []
  let child := registered.foldl (fun acc p => ndSet acc p.1 p.2) []
  .ok (ndUnion parent child)

/-- `BuilderABC.build_part`: look up the (normalized) part type in the resolved
builder map — unknown types raise `ValueError`; with `cached_solid` the result
is memoized in the instance cache, otherwise every call builds a fresh object.
Returns the object identifier, the new world counter and the new instance
state. -/
def buildPart (bmap : NDict Nat) (w : Nat) (b : BuilderInst) (partType : String)
    (cachedSolid : Bool) : Except CadError (Nat × Nat × BuilderInst) :=
  match ndGet bmap partType with
  | none => .error (.valueError ("Invalid part type: " ++ partType))
  | some _ =>
    if cachedSolid then
      match ndGet b.cache partType with
      | some s => .ok (s, w, b)
      | none => .ok (w, w + 1, ⟨ndSet b.cache partType w⟩)
    else
      .ok (w, w + 1, b)

/-- `BuilderABC.clear_cache`. -/
def clearCache (_b : BuilderInst) : BuilderInst := ⟨[]⟩

/-- Well-formedness of a builder instance against the allocation counter:
every cached solid was allocated in the past. -/
def cacheWF (w : Nat) (b : BuilderInst) : Prop :=
  ∀ p ∈ b.cache, p.2 < w

/-! ### `AssemblerABC` subtype definition -/

/-- `AssemblerABC.normalize_values` followed by `NormalizedDict(...)`: the
declared `part_map` with keys and values normalized. -/
def normalizePartMap (declared : List (String × String)) : NDict String :=
  declared.foldl (fun acc p => ndSet acc p.1 (normKey p.2)) []

/-- `AssemblerABC._resolve_part_map`.  When the class declares a non-empty
`part_map` (Python truthiness), the result is the inherited resolved map
merged with the class's own map, own entries winning.  Otherwise identity
mappings are added for every builder part-type not already a value of the
inherited map, and merged below the inherited map (inherited entries win).
`part_types` is a `frozenset`; its iteration order is determinized here as the
builder map's key order. -/
def resolvePartMap (parentMaps : List (Option (NDict String))) (bmap : NDict Nat)
    (pm : NDict String) : NDict String :=
  let parent := (getParentItems parentMaps).getD []
  if pm.isEmpty then
    let mapped := valuesOf parent
    let newMappings : NDict String :=
      ((keysOf bmap).filter (fun pt => !(mapped.contains pt))).map
        (fun pt => (normKey pt, pt))
    ndUnion newMappings parent
  else
    ndUnion parent pm

/-- A defined (concrete) assembler class: the validated output of
`AssemblerABC.__init_subclass__`.  Instances can only be constructed from such
a value, so a configuration error at definition time precedes any instance. -/
structure AssemblerClass where
  name : String
  builderMap : NDict Nat
  resolvedPartMap : NDict String
deriving DecidableEq, Repr

/-- `AssemblerABC.__init_subclass__`: require `BuilderClass` (a `BuilderABC`
subclass, `none` models it missing or invalid), normalize the declared
`part_map` (absent means `{}`), resolve it, and validate that every resolved
value is a registered builder part-type, raising a `ValueError` that names the
class and the offending values otherwise. -/
def defineAssembler (nm : String) (builderClass : Option (NDict Nat))
    (declared : Option (List (String × String)))
    (parentMaps : List (Option (NDict String))) : Except CadError AssemblerClass :=
  match builderClass with
  | none => .error (.missingBuilderClass nm)
  | some bmap =>
    let pm := normalizePartMap (declared.getD [])
    let resolved := resolvePartMap parentMaps bmap pm
    let bad := ((valuesOf resolved).dedup).filter
      (fun v => !((keysOf bmap).contains v))
    if bad.isEmpty then
      .ok ⟨nm, bmap, resolved⟩
    else
      .error (.invalidPartMapValues nm bad)

/-! ### `AssemblerABC` instances and `assemble` -/

/-- Metadata for one part: a plain Python dict (keys are literal `"name"`,
`"color"`, `"loc"`; they are not normalized). -/
abbrev Metadata := List (String × Val)

/-- An assembler instance: the defined class, the instance color
(`__init__` defaults it to burlywood), the class's own `get_metadata_map`
result, the `getattr(base, "get_metadata_map")` results along `__mro__[1:]`
(`none` for abstract/absent), and the embedded builder instance. -/
structure AssemblerInst where
  cls : AssemblerClass
  color : Val
  ownMeta : List (String × Metadata)
  ancestorMetas : List (Option (List (String × Metadata)))
  builder : BuilderInst
deriving DecidableEq, Repr

/-- `AssemblerABC.__init__`: store the color (defaulted) and construct a fresh
builder from the resolved `BuilderClass`. -/
def assemblerInit (cls : AssemblerClass) (color : Option Val)
    (ownMeta : List (String × Metadata))
    (ancestorMetas : List (Option (List (String × Metadata)))) : AssemblerInst :=
  ⟨cls, color.getD (.str "burlywood"), ownMeta, ancestorMetas, builderInit⟩

/-- `AssemblerABC._get_resolved_metadata_map`: normalize the class's own
metadata map, then walk the ancestry merging each ancestor's map below the
accumulated one (younger wins). -/
def getResolvedMetadataMap (A : AssemblerInst) : NDict Metadata :=
  A.ancestorMetas.foldl
    (fun resolved pf =>
      match pf with
      | none => resolved
      | some parentRaw => ndUnion (ndFromList parentRaw) resolved)
    (ndFromList A.ownMeta)

/-- Python `str.title()` on an ASCII character list: the first character of
every alphabetic run is uppercased, the rest lowercased. -/
def titleChars : Bool → List Char → List Char
  | _, [] => []
  | prevAlpha, c :: cs =>
    let c' := if c.isAlpha then (if prevAlpha then c.toLower else c.toUpper) else c
    c' :: titleChars c.isAlpha cs

/-- The default metadata name of a part: `part.title().replace("_", " ")`. -/
def defaultName (part : String) : String :=
  String.mk ((titleChars false part.data).map (fun c => if c = '_' then ' ' else c))

/-- `dict.setdefault` on a plain metadata dict. -/
def setdefaultD (m : Metadata) (k : String) (v : Val) : Metadata :=
  if (lookupA m k).isSome then m else insertA m k v

/-- The defaulted metadata of one part:
`metadata = resolved_metadata_map.get(part, {})` followed by
`metadata.setdefault("name", part.title().replace("_", " "))` and
`metadata.setdefault("color", self.color)`.  Pure, never raises. -/
def partMetadata (rmm : NDict Metadata) (color : Val) (part : String) : Metadata :=
  setdefaultD
    (setdefaultD ((ndGet rmm part).getD []) "name" (.str (defaultName part)))
    "color" color

/-- The loop body of `AssemblerABC._get_assembly_data`: for each part, look it
up in the resolved part map (`KeyError` on the normalized key when absent),
build its part-type with caching enabled, and emit the pair of the solid and
the defaulted metadata (`partMetadata`, whose computation never raises and is
order-independent of the lookups). -/
def getAssemblyDataAux (rmm : NDict Metadata) (rpm : NDict String)
    (bmap : NDict Nat) (color : Val) :
    List String → Nat → BuilderInst →
    Except CadError (List (Nat × Metadata) × Nat × BuilderInst)
  | [], w, b => .ok ([], w, b)
  | part :: rest, w, b =>
    match ndGet rpm part with
    | none => .error (.keyError (normKey part))
    | some pt =>
      match buildPart bmap w b pt true with
      | .error e => .error e
      | .ok (s, w1, b1) =>
        match getAssemblyDataAux rmm rpm bmap color rest w1 b1 with
        | .error e => .error e
        | .ok (tail, w2, b2) =>
          .ok ((s, partMetadata rmm color part) :: tail, w2, b2)

/-- The part selection of `AssemblerABC.assemble`:
`set(parts) if parts else self._resolved_part_map.keys()`.  A `none` or empty
(falsy) argument selects every key of the resolved part map; a non-empty list
is deduplicated (`set`, determinized as first-occurrence order). -/
def assemblyPartsSel (rpm : NDict String) : Option (List String) → List String
  | some l => if l.isEmpty then keysOf rpm else l.dedup
  | none => keysOf rpm

/-- `AssemblerABC.assemble`: select the parts, resolve the combined metadata
map, and fold `_get_assembly_data` into the assembly (a list of
`(solid, metadata)` pairs handed to `cq.Assembly.add`). -/
def assemble (A : AssemblerInst) (w : Nat) (parts : Option (List String)) :
    Except CadError (List (Nat × Metadata) × Nat × BuilderInst) :=
  getAssemblyDataAux (getResolvedMetadataMap A) A.cls.resolvedPartMap
    A.cls.builderMap A.color (assemblyPartsSel A.cls.resolvedPartMap parts)
    w A.builder

/-! ### Concrete fixtures (used by witnesses and counterexamples) -/

/-- The `__dict__` produced by `BasicDimensionData((1, 2, 3))`
(resolved by evaluating `bddInit`). -/
def frozenRec : Dict :=
  [(flagKey, .bool true), ("x_len", .num 1), ("y_len", .num 2),
   ("z_len", .num 3), ("_has_basic_dimensions", .bool true)]

/-- A record before any freeze: flag present and `False`, no dimensions. -/
def unfrozenRec : Dict :=
  [(flagKey, .bool false), ("_has_basic_dimensions", .bool false)]

/-- `frozenRec` after the escape-hatch assignment
`rec._freeze_existing_attributes = False`. -/
def thawedRec : Dict := insertA frozenRec flagKey (.bool false)

/-- A one-part builder map (part type `top`, build function `0`). -/
def bmapTop : NDict Nat := [("top", 0)]

/-- A two-part builder map. -/
def bmapAB : NDict Nat := [("a", 0), ("b", 1)]

/-- A concrete assembler class over `bmapTop` with the identity part map. -/
def asmClsTop : AssemblerClass := ⟨"BoxAssembler", bmapTop, [("top", "top")]⟩

/-- An instance of `asmClsTop` whose `get_metadata_map` returns `{}` and that
has no metadata-providing ancestors. -/
def asmInstTop : AssemblerInst := assemblerInit asmClsTop none [] []

/-- A concrete assembler class over `bmapAB` with the identity part map. -/
def asmClsAB : AssemblerClass := ⟨"TwoPartAssembler", bmapAB, [("a", "a"), ("b", "b")]⟩

/-- An instance of `asmClsAB` with empty metadata everywhere. -/
def asmInstAB : AssemblerInst := assemblerInit asmClsAB none [] []

/-! ## Lemmas about the dictionary model -/

theorem lookupA_insertA_self {α : Type} (d : List (String × α)) (k : String) (v : α) :
    lookupA (insertA d k v) k = some v := by
  induction d with
  | nil => simp [insertA, lookupA]
  | cons p rest ih =>
    obtain ⟨k0, v0⟩ := p
    by_cases h : k0 = k
    · simp [insertA, h, lookupA]
    · simp [insertA, h, lookupA, ih]

theorem lookupA_insertA_ne {α : Type} (d : List (String × α)) (k k' : String) (v : α)
    (h : k' ≠ k) : lookupA (insertA d k v) k' = lookupA d k' := by
  induction d with
  | nil => simp [insertA, lookupA, Ne.symm h]
  | cons p rest ih =>
    obtain ⟨k0, v0⟩ := p
    by_cases h0 : k0 = k
    · subst h0
      simp [insertA, lookupA, Ne.symm h]
    · by_cases h1 : k0 = k'
      · subst h1
        simp [insertA, h, lookupA]
      · simp [insertA, h0, lookupA, h1, ih]

theorem mem_keys_insertA {α : Type} (d : List (String × α)) (k x : String) (v : α) :
    x ∈ keysOf (insertA d k v) ↔ x ∈ keysOf d ∨ x = k := by
  induction d with
  | nil => simp [insertA, keysOf]
  | cons p rest ih =>
    obtain ⟨k0, v0⟩ := p
    by_cases h : k0 = k
    · subst h
      simp [insertA, keysOf]
      tauto
    · simp [insertA, h, keysOf] at ih ⊢
      tauto

theorem nodup_keys_insertA {α : Type} (d : List (String × α)) (k : String) (v : α) :
    (keysOf d).Nodup → (keysOf (insertA d k v)).Nodup := by
  induction d with
  | nil =>
    intro _
    simp [insertA, keysOf]
  | cons p rest ih =>
    intro h
    obtain ⟨k0, v0⟩ := p
    simp only [keysOf, List.map_cons, List.nodup_cons] at h
    by_cases hk : k0 = k
    · subst hk
      simpa [insertA, keysOf, List.nodup_cons] using h
    · have hrec := ih h.2
      simp only [insertA, hk, if_false, keysOf, List.map_cons, List.nodup_cons]
      refine ⟨?_, hrec⟩
      intro hmem
      rcases (mem_keys_insertA rest k k0 v).mp hmem with h1 | h1
      · exact h.1 h1
      · exact hk h1

theorem mem_insertA {α : Type} (d : List (String × α)) (k : String) (v : α)
    (x : String × α) : x ∈ insertA d k v → x ∈ d ∨ x = (k, v) := by
  induction d with
  | nil =>
    intro h
    simpa [insertA] using h
  | cons p rest ih =>
    intro h
    obtain ⟨k0, v0⟩ := p
    by_cases h0 : k0 = k
    · subst h0
      rw [show insertA ((k0, v0) :: rest) k0 v = (k0, v) :: rest from by
        simp [insertA]] at h
      rcases List.mem_cons.mp h with h | h
      · exact Or.inr h
      · exact Or.inl (List.mem_cons_of_mem _ h)
    · simp only [insertA, h0, if_false, List.mem_cons] at h
      rcases h with h | h
      · exact Or.inl (by simp [h])
      · rcases ih h with h1 | h1
        · exact Or.inl (List.mem_cons_of_mem _ h1)
        · exact Or.inr h1

theorem lookupA_mem {α : Type} (d : List (String × α)) (k : String) (v : α) :
    lookupA d k = some v → (k, v) ∈ d := by
  induction d with
  | nil => intro h; cases h
  | cons p rest ih =>
    intro h
    obtain ⟨k0, v0⟩ := p
    by_cases h0 : k0 = k
    · subst h0
      simp only [lookupA, if_pos rfl] at h
      cases h
      exact List.mem_cons_self _ _
    · simp only [lookupA, h0, if_false] at h
      exact List.mem_cons_of_mem _ (ih h)

theorem lookupA_isSome_iff_mem {α : Type} (d : List (String × α)) (k : String) :
    (lookupA d k).isSome = true ↔ k ∈ keysOf d := by
  induction d with
  | nil => simp [lookupA, keysOf]
  | cons p rest ih =>
    obtain ⟨k0, v0⟩ := p
    by_cases h : k0 = k
    · simp [lookupA, h, keysOf]
    · simp [lookupA, h, keysOf, ih, Ne.symm h]

theorem lookupA_eq_none_of_not_mem {α : Type} (d : List (String × α)) (k : String)
    (h : k ∉ keysOf d) : lookupA d k = none := by
  by_cases hs : (lookupA d k).isSome = true
  · exact absurd ((lookupA_isSome_iff_mem d k).mp hs) h
  · exact Option.not_isSome_iff_eq_none.mp (by simpa using hs)

theorem lookupA_ndUnion {α : Type} (b : NDict α) (k : String) :
    ∀ a : NDict α, (keysOf b).Nodup →
      lookupA (ndUnion a b) k = orO (lookupA b k) (lookupA a k) := by
  induction b with
  | nil =>
    intro a _
    simp [ndUnion, lookupA, orO]
  | cons p rest ih =>
    intro a hb
    obtain ⟨k0, v0⟩ := p
    simp only [keysOf, List.map_cons, List.nodup_cons] at hb
    have step : ndUnion a ((k0, v0) :: rest) = ndUnion (insertA a k0 v0) rest := rfl
    rw [step, ih (insertA a k0 v0) hb.2]
    by_cases h : k0 = k
    · subst h
      have hnone : lookupA rest k0 = none :=
        lookupA_eq_none_of_not_mem rest k0 hb.1
      simp [lookupA, hnone, lookupA_insertA_self, orO]
    · rw [lookupA_insertA_ne a k0 k v0 (Ne.symm h)]
      simp [lookupA, h]

theorem nodup_keys_ndUnion {α : Type} (b : NDict α) :
    ∀ a : NDict α, (keysOf a).Nodup → (keysOf (ndUnion a b)).Nodup := by
  induction b with
  | nil => exact fun a ha => ha
  | cons p rest ih =>
    exact fun a ha => ih (insertA a p.1 p.2) (nodup_keys_insertA a p.1 p.2 ha)

theorem getParentItemsAux_nodup {α : Type} (l : List (Option (NDict α))) :
    ∀ acc : Option (NDict α),
      (∀ d, acc = some d → (keysOf d).Nodup) →
      (∀ d, some d ∈ l → (keysOf d).Nodup) →
      ∀ d, getParentItemsAux acc l = some d → (keysOf d).Nodup := by
  induction l with
  | nil =>
    intro acc hacc _ d hd
    exact hacc d (by simpa [getParentItemsAux] using hd)
  | cons x rest ih =>
    intro acc hacc hl d hd
    cases x with
    | none =>
      exact ih acc hacc (fun e he => hl e (List.mem_cons_of_mem _ he)) d hd
    | some older =>
      have holder : (keysOf older).Nodup := hl older (List.mem_cons_self _ _)
      cases acc with
      | none =>
        exact ih (some older)
          (fun e he => by cases he; exact holder)
          (fun e he => hl e (List.mem_cons_of_mem _ he)) d hd
      | some cur =>
        exact ih (some (ndUnion older cur))
          (fun e he => by cases he; exact nodup_keys_ndUnion cur older holder)
          (fun e he => hl e (List.mem_cons_of_mem _ he)) d hd

theorem getParentItems_nodup {α : Type} (l : List (Option (NDict α)))
    (hl : ∀ d, some d ∈ l → (keysOf d).Nodup) :
    ∀ d, getParentItems l = some d → (keysOf d).Nodup :=
  getParentItemsAux_nodup l none (fun d hd => by cases hd) hl

theorem getParentItemsAux_all_none {α : Type} (l : List (Option (NDict α))) :
    ∀ acc : Option (NDict α), (∀ m ∈ l, m = none) →
      getParentItemsAux acc l = acc := by
  induction l with
  | nil => intro acc _; rfl
  | cons x rest ih =>
    intro acc h
    have hx : x = none := h x (List.mem_cons_self _ _)
    subst hx
    exact ih acc (fun m hm => h m (List.mem_cons_of_mem _ hm))

theorem lookupA_identMap (xs : List String) (k : String) :
    (∀ x ∈ xs, normKey x = x) →
      lookupA (xs.map (fun pt => (normKey pt, pt))) k =
        if k ∈ xs then some k else none := by
  induction xs with
  | nil =>
    intro _
    simp [lookupA]
  | cons x rest ih =>
    intro hn
    have hx : normKey x = x := hn x (List.mem_cons_self _ _)
    have hrest : ∀ y ∈ rest, normKey y = y :=
      fun y hy => hn y (List.mem_cons_of_mem _ hy)
    by_cases h : x = k
    · subst h
      simp [lookupA, hx]
    · simp [lookupA, hx, h, ih hrest, Ne.symm h]

/-! ## Lemmas about the dimension-record state machine -/

theorem setattrD_unfrozen (d : Dict) (n : String) (v : Val)
    (h : isFrozen d = false) : setattrD d n v = .ok (insertA d n v) := by
  simp [setattrD, h]

theorem setattrD_flag (d : Dict) (v : Val) :
    setattrD d flagKey v = .ok (insertA d flagKey v) := by
  simp [setattrD]

theorem setattrD_ok_eq (d d' : Dict) (n : String) (v : Val)
    (h : setattrD d n v = .ok d') : d' = insertA d n v := by
  unfold setattrD at h
  split at h
  · cases h
  · cases h
    rfl

theorem isFrozen_insertA (d : Dict) (n : String) (v : Val) (h : n ≠ flagKey) :
    isFrozen (insertA d n v) = isFrozen d := by
  unfold isFrozen
  rw [lookupA_insertA_ne d n flagKey v (Ne.symm h)]

theorem updateD_ok_unfrozen (l : List (String × Val)) :
    ∀ d : Dict, isFrozen d = false → (∀ p ∈ l, p.1 ≠ flagKey) →
      ∃ d', updateD d l = .ok d' ∧ isFrozen d' = false := by
  induction l with
  | nil =>
    intro d h _
    exact ⟨d, rfl, h⟩
  | cons p rest ih =>
    intro d h hk
    obtain ⟨k, v⟩ := p
    have hk1 : k ≠ flagKey := hk (k, v) (List.mem_cons_self _ _)
    have hrest : ∀ q ∈ rest, q.1 ≠ flagKey :=
      fun q hq => hk q (List.mem_cons_of_mem _ hq)
    have step : setattrD d k v = .ok (insertA d k v) := setattrD_unfrozen d k v h
    have hf : isFrozen (insertA d k v) = false := by
      rw [isFrozen_insertA d k v hk1]
      exact h
    obtain ⟨d', h1, h2⟩ := ih (insertA d k v) hf hrest
    exact ⟨d', by simp [updateD, step, h1], h2⟩

theorem updateD_frozen_pres (l : List (String × Val)) :
    ∀ d d' : Dict, (∀ p ∈ l, p.1 ≠ flagKey) → updateD d l = .ok d' →
      isFrozen d' = isFrozen d := by
  induction l with
  | nil =>
    intro d d' _ hok
    cases hok
    rfl
  | cons p rest ih =>
    intro d d' hk hok
    obtain ⟨k, v⟩ := p
    have hk1 : k ≠ flagKey := hk (k, v) (List.mem_cons_self _ _)
    have hrest : ∀ q ∈ rest, q.1 ≠ flagKey :=
      fun q hq => hk q (List.mem_cons_of_mem _ hq)
    unfold updateD at hok
    cases hset : setattrD d k v with
    | error e => rw [hset] at hok; cases hok
    | ok d1 =>
      rw [hset] at hok
      have hd1 : d1 = insertA d k v := setattrD_ok_eq d d1 k v hset
      rw [ih d1 d' hrest hok, hd1, isFrozen_insertA d k v hk1]

theorem isFrozen_after_freeze (d d' : Dict)
    (h : freezeExistingAttributes d = .ok d') : isFrozen d' = true := by
  unfold freezeExistingAttributes at h
  split at h
  · cases h
  · split at h
    · have := setattrD_ok_eq d d' flagKey (.bool true) h
      subst this
      unfold isFrozen
      rw [lookupA_insertA_self]
      rfl
    · cases h

/-! ## Lemmas about the builder cache -/

theorem buildPart_cached_cache (bmap : NDict Nat) (w : Nat) (b : BuilderInst)
    (pt : String) (s w1 : Nat) (b1 : BuilderInst)
    (h : buildPart bmap w b pt true = .ok (s, w1, b1)) :
    ndGet b1.cache pt = some s ∧ ndGet bmap pt ≠ none ∧ w ≤ w1 := by
  unfold buildPart at h
  cases hb : ndGet bmap pt with
  | none => rw [hb] at h; cases h
  | some f =>
    rw [hb] at h
    simp only [if_true] at h
    cases hc : ndGet b.cache pt with
    | some s0 =>
      rw [hc] at h
      cases h
      exact ⟨hc, by simp, Nat.le_refl _⟩
    | none =>
      rw [hc] at h
      cases h
      refine ⟨?_, by simp, Nat.le_succ _⟩
      show lookupA (insertA b.cache (normKey pt) w) (normKey pt) = some w
      exact lookupA_insertA_self _ _ _

theorem buildPart_cached_lt (bmap : NDict Nat) (w : Nat) (b : BuilderInst)
    (pt : String) (s w1 : Nat) (b1 : BuilderInst)
    (hWF : cacheWF w b)
    (h : buildPart bmap w b pt true = .ok (s, w1, b1)) :
    s < w1 ∧ cacheWF w1 b1 := by
  unfold buildPart at h
  cases hb : ndGet bmap pt with
  | none => rw [hb] at h; cases h
  | some f =>
    rw [hb] at h
    simp only [if_true] at h
    cases hc : ndGet b.cache pt with
    | some s0 =>
      rw [hc] at h
      cases h
      have hmem : ((normKey pt), s) ∈ b.cache := lookupA_mem _ _ _ hc
      exact ⟨hWF _ hmem, hWF⟩
    | none =>
      rw [hc] at h
      cases h
      constructor
      · exact Nat.lt_succ_self w
      · intro p hp
        rcases mem_insertA b.cache (normKey pt) w p hp with h1 | h1
        · exact Nat.lt_succ_of_lt (hWF p h1)
        · subst h1
          exact Nat.lt_succ_self w

/-! ## Lemmas about the assembly loop -/

theorem gad_length (rmm : NDict Metadata) (rpm : NDict String) (bmap : NDict Nat)
    (color : Val) (ps : List String) :
    ∀ (w : Nat) (b : BuilderInst) (data : List (Nat × Metadata)) (w' : Nat)
      (b' : BuilderInst),
      getAssemblyDataAux rmm rpm bmap color ps w b = .ok (data, w', b') →
      data.length = ps.length := by
  induction ps with
  | nil =>
    intro w b data w' b' h
    cases h
    rfl
  | cons part rest ih =>
    intro w b data w' b' h
    unfold getAssemblyDataAux at h
    cases hr : ndGet rpm part with
    | none => rw [hr] at h; cases h
    | some pt =>
      simp only [hr] at h
      cases hbp : buildPart bmap w b pt true with
      | error e => simp only [hbp] at h; cases h
      | ok res =>
        obtain ⟨s, w1, b1⟩ := res
        simp only [hbp] at h
        cases hrec : getAssemblyDataAux rmm rpm bmap color rest w1 b1 with
        | error e => simp only [hrec] at h; cases h
        | ok res2 =>
          obtain ⟨tail, w2, b2⟩ := res2
          simp only [hrec] at h
          cases h
          simpa using ih w1 b1 tail _ _ hrec

theorem gad_found (rmm : NDict Metadata) (rpm : NDict String) (bmap : NDict Nat)
    (color : Val) (ps : List String) :
    ∀ (w : Nat) (b : BuilderInst) (data : List (Nat × Metadata)) (w' : Nat)
      (b' : BuilderInst),
      getAssemblyDataAux rmm rpm bmap color ps w b = .ok (data, w', b') →
      ∀ p ∈ ps, (ndGet rpm p).isSome = true := by
  induction ps with
  | nil =>
    intro w b data w' b' _ p hp
    cases hp
  | cons part rest ih =>
    intro w b data w' b' h p hp
    unfold getAssemblyDataAux at h
    cases hr : ndGet rpm part with
    | none => rw [hr] at h; cases h
    | some pt =>
      simp only [hr] at h
      cases hbp : buildPart bmap w b pt true with
      | error e => simp only [hbp] at h; cases h
      | ok res =>
        obtain ⟨s, w1, b1⟩ := res
        simp only [hbp] at h
        cases hrec : getAssemblyDataAux rmm rpm bmap color rest w1 b1 with
        | error e => simp only [hrec] at h; cases h
        | ok res2 =>
          obtain ⟨tail, w2, b2⟩ := res2
          simp only [hrec] at h
          cases h
          rcases List.mem_cons.mp hp with hpe | hpe
          · subst hpe
            simp [hr]
          · exact ih w1 b1 tail _ _ hrec p hpe

theorem xyzKeysNeFlag (x y z : Val) :
    ∀ p ∈ [("x_len", x), ("y_len", y), ("z_len", z)], p.1 ≠ flagKey := by
  intro p hp
  simp only [List.mem_cons, List.not_mem_nil, or_false] at hp
  rcases hp with h | h | h
  · subst h
    show ("x_len" : String) ≠ flagKey
    decide
  · subst h
    show ("y_len" : String) ≠ flagKey
    decide
  · subst h
    show ("z_len" : String) ≠ flagKey
    decide

/-! ## Claim theorems: the dimension record -/

/-- C4 (amended): on a frozen dimension record, assigning any existing
attribute key other than the internal freeze-flag attribute itself raises the
immutability error; on an unfrozen record any assignment succeeds. -/
theorem setattr_frozen_behavior (d : Dict) (n : String) (v : Val) :
    (isFrozen d = true → n ≠ flagKey → (lookupA d n).isSome = true →
      setattrD d n v = .error .immutable)
    ∧ (isFrozen d = false → setattrD d n v = .ok (insertA d n v)) := by
  constructor
  · intro hf hn hsome
    have hb : (n != flagKey) = true := bne_iff_ne.mpr hn
    simp [setattrD, hf, hb, hsome]
  · intro hf
    exact setattrD_unfrozen d n v hf

/-- Witness for C4's amended theorem at a concrete frozen and a concrete
unfrozen record. -/
theorem setattr_frozen_behavior_witness :
    setattrD frozenRec "x_len" (.num 9) = .error .immutable
    ∧ setattrD unfrozenRec "x_len" (.num 9) =
        .ok (insertA unfrozenRec "x_len" (.num 9)) :=
  ⟨(setattr_frozen_behavior frozenRec "x_len" (.num 9)).1
      (by decide) (by decide) (by decide),
   (setattr_frozen_behavior unfrozenRec "x_len" (.num 9)).2 (by decide)⟩

/-- Counterexample to C4 as stated: `_freeze_existing_attributes` is an
attribute key present on the record at the moment `freeze_existing_attributes`
succeeds (the full `BasicDimensionData((1, 2, 3))` construction ends with it
set), yet a later assignment to it succeeds instead of raising. -/
theorem freeze_flag_reassignable_cex :
    bddInit (some (.seq [.num 1, .num 2, .num 3])) true [] = .ok frozenRec
    ∧ (lookupA frozenRec flagKey).isSome = true
    ∧ setattrD frozenRec flagKey (.bool false) = .ok thawedRec :=
  ⟨rfl, rfl, rfl⟩

/-- C7 (amended): a frozen record stays frozen under every operation of the
class — attribute assignment, `update`, `set_basic_dimensions`,
`freeze_existing_attributes` — except an assignment to the internal freeze-flag
attribute itself. -/
theorem frozen_state_preservation (d d' : Dict) (hf : isFrozen d = true) :
    (∀ n v, n ≠ flagKey → setattrD d n v = .ok d' → isFrozen d' = true)
    ∧ (∀ l, (∀ p ∈ l, p.1 ≠ flagKey) → updateD d l = .ok d' → isFrozen d' = true)
    ∧ (∀ arg extras, (∀ p ∈ extras, p.1 ≠ flagKey) →
        setBasicDimensions d arg extras = .ok d' → isFrozen d' = true)
    ∧ (freezeExistingAttributes d = .ok d' → isFrozen d' = true) := by
  refine ⟨?_, ?_, ?_, ?_⟩
  · intro n v hn hok
    rw [setattrD_ok_eq d d' n v hok, isFrozen_insertA d n v hn]
    exact hf
  · intro l hl hok
    rw [updateD_frozen_pres l d d' hl hok]
    exact hf
  · intro arg extras hex hok
    cases arg with
    | nonSeq v => cases hok
    | seq xs =>
      cases xs with
      | nil => cases hok
      | cons x t1 =>
        cases t1 with
        | nil => cases hok
        | cons y t2 =>
          cases t2 with
          | nil => cases hok
          | cons z t3 =>
            cases t3 with
            | cons w t4 => cases hok
            | nil =>
              unfold setBasicDimensions at hok
              cases hu1 : updateD d extras with
              | error e => simp only [hu1] at hok; cases hok
              | ok d1 =>
                simp only [hu1] at hok
                cases hu2 : updateD d1 [("x_len", x), ("y_len", y), ("z_len", z)] with
                | error e => simp only [hu2] at hok; cases hok
                | ok d2 =>
                  simp only [hu2] at hok
                  have hf1 : isFrozen d1 = true := by
                    rw [updateD_frozen_pres extras d d1 hex hu1]
                    exact hf
                  have hf2 : isFrozen d2 = true := by
                    rw [updateD_frozen_pres _ d1 d2 (xyzKeysNeFlag x y z) hu2]
                    exact hf1
                  rw [setattrD_ok_eq d2 d' _ _ hok,
                    isFrozen_insertA d2 "_has_basic_dimensions" (.bool true) (by decide)]
                  exact hf2
  · exact isFrozen_after_freeze d d'

/-- Witness for C7's amended theorem: assigning a brand-new key to the
concrete frozen record keeps it frozen. -/
theorem frozen_state_preservation_witness :
    isFrozen (insertA frozenRec "w_len" (.num 5)) = true :=
  (frozen_state_preservation frozenRec (insertA frozenRec "w_len" (.num 5))
      (by decide)).1 "w_len" (.num 5) (by decide) (by rfl)

/-- Counterexample to C7 as stated: one attribute assignment (to the freeze
flag) returns the concrete frozen record to a state in which `x_len`, a key
that existed at freeze time, is reassignable without error. -/
theorem unfreeze_escape_cex :
    isFrozen frozenRec = true
    ∧ (lookupA frozenRec "x_len").isSome = true
    ∧ setattrD frozenRec flagKey (.bool false) = .ok thawedRec
    ∧ (exOk (setattrD thawedRec "x_len" (.num 99))).isSome = true :=
  ⟨rfl, rfl, rfl, rfl⟩

/-- C10 (amended): on a frozen record, for every name other than the freeze
flag, assignment succeeds exactly when the name is not currently an attribute;
once set, the name immediately becomes immutable; the freeze flag itself is
always assignable. -/
theorem frozen_setattr_iff (d : Dict) (n : String) (v v' : Val)
    (hf : isFrozen d = true) (hn : n ≠ flagKey) :
    ((exOk (setattrD d n v)).isSome = (lookupA d n).isNone)
    ∧ (lookupA d n = none → setattrD (insertA d n v) n v' = .error .immutable)
    ∧ (setattrD d flagKey v = .ok (insertA d flagKey v)) := by
  refine ⟨?_, ?_, setattrD_flag d v⟩
  · cases hl : lookupA d n with
    | some v0 =>
      have := (setattr_frozen_behavior d n v).1 hf hn (by simp [hl])
      simp [this, exOk, hl]
    | none =>
      have hok : setattrD d n v = .ok (insertA d n v) := by
        simp [setattrD, hl]
      simp [hok, exOk, hl]
  · intro hl
    have hfz : isFrozen (insertA d n v) = true := by
      rw [isFrozen_insertA d n v hn]
      exact hf
    exact (setattr_frozen_behavior (insertA d n v) n v').1 hfz hn
      (by simp [lookupA_insertA_self])

/-- Witness for C10's amended theorem: on the concrete frozen record, the new
key `extra` is settable once, then immutable. -/
theorem frozen_setattr_iff_witness :
    setattrD (insertA frozenRec "extra" (.num 1)) "extra" (.num 2) =
      .error .immutable :=
  (frozen_setattr_iff frozenRec "extra" (.num 1) (.num 2)
      (by decide) (by decide)).2.1 (by decide)

/-- Counterexample to C10 as stated: on the concrete frozen record the name
`_freeze_existing_attributes` is currently an attribute of the instance, yet
assigning it succeeds — the claimed equivalence fails for that name. -/
theorem flag_setattr_iff_cex :
    isFrozen frozenRec = true
    ∧ (lookupA frozenRec flagKey).isSome = true
    ∧ (exOk (setattrD frozenRec flagKey (.bool true))).isSome = true :=
  ⟨rfl, rfl, rfl⟩

/-- C5 (amended): `set_basic_dimensions` on an unfrozen record rejects with a
`TypeError` exactly the arguments that are not sequences of length three; the
elements of a length-three sequence are not inspected, so any such sequence is
accepted. -/
theorem sbd_validation (d : Dict) (extras : List (String × Val))
    (h1 : isFrozen d = false) (h2 : ∀ p ∈ extras, p.1 ≠ flagKey) :
    (∀ v, setBasicDimensions d (.nonSeq v) extras = .error (.typeError sbdMsg))
    ∧ (∀ xs, xs.length ≠ 3 →
        setBasicDimensions d (.seq xs) extras = .error (.typeError sbdMsg))
    ∧ (∀ xs, xs.length = 3 →
        (exOk (setBasicDimensions d (.seq xs) extras)).isSome = true) := by
  refine ⟨fun v => rfl, ?_, ?_⟩
  · intro xs hlen
    cases xs with
    | nil => rfl
    | cons x t1 =>
      cases t1 with
      | nil => rfl
      | cons y t2 =>
        cases t2 with
        | nil => rfl
        | cons z t3 =>
          cases t3 with
          | nil => exact absurd rfl hlen
          | cons w t4 => rfl
  · intro xs hlen
    obtain ⟨x, y, z, rfl⟩ := List.length_eq_three.mp hlen
    obtain ⟨d1, hu1, hf1⟩ := updateD_ok_unfrozen extras d h1 h2
    obtain ⟨d2, hu2, hf2⟩ :=
      updateD_ok_unfrozen [("x_len", x), ("y_len", y), ("z_len", z)] d1 hf1
        (xyzKeysNeFlag x y z)
    have hset : setattrD d2 "_has_basic_dimensions" (.bool true) =
        .ok (insertA d2 "_has_basic_dimensions" (.bool true)) :=
      setattrD_unfrozen d2 _ _ hf2
    unfold setBasicDimensions
    simp only [hu1, hu2, hset, exOk, Option.isSome_some]

/-- Witness for C5's amended theorem: a non-sequence is rejected and a
sequence of three numbers is accepted on a concrete unfrozen record. -/
theorem sbd_validation_witness :
    setBasicDimensions unfrozenRec (.nonSeq (.num 7)) [] = .error (.typeError sbdMsg)
    ∧ (exOk (setBasicDimensions unfrozenRec
        (.seq [.num 1, .num 2, .num 3]) [])).isSome = true :=
  ⟨(sbd_validation unfrozenRec [] (by decide) (by decide)).1 (.num 7),
   (sbd_validation unfrozenRec [] (by decide) (by decide)).2.2
      [.num 1, .num 2, .num 3] (by decide)⟩

/-- Counterexample to C5 as stated: a sequence of three *strings* — not
numeric values — is accepted both by `set_basic_dimensions` and by the full
construction, instead of being rejected with a type error. -/
theorem sbd_nonnumeric_accepted_cex :
    setBasicDimensions [(flagKey, .bool false)]
        (.seq [.str "a", .str "b", .str "c"]) [] =
      .ok [(flagKey, .bool false), ("x_len", .str "a"), ("y_len", .str "b"),
           ("z_len", .str "c"), ("_has_basic_dimensions", .bool true)]
    ∧ bddInit (some (.seq [.str "a", .str "b", .str "c"])) true [] =
      .ok [(flagKey, .bool true), ("x_len", .str "a"), ("y_len", .str "b"),
           ("z_len", .str "c"), ("_has_basic_dimensions", .bool true)] :=
  ⟨rfl, rfl⟩

/-! ## Claim theorems: the builder cache -/

/-- C8: on one builder instance, two cached `build_part` calls for the same
normalized part-type return the identical object; after `clear_cache` a
further cached call returns a new, non-identical object; and a second,
freshly-initialized instance (`BuilderABC.__init__` gives each instance its
own empty cache) never returns the first instance's object. -/
theorem buildPart_cache_contract (bmap : NDict Nat) (w : Nat) (b : BuilderInst)
    (pt pt' : String) (s1 w1 : Nat) (b1 : BuilderInst)
    (hWF : cacheWF w b) (hnorm : normKey pt' = normKey pt)
    (h1 : buildPart bmap w b pt true = .ok (s1, w1, b1)) :
    (∀ s2 w2 b2, buildPart bmap w1 b1 pt' true = .ok (s2, w2, b2) → s2 = s1)
    ∧ (∀ s2 w2 b2,
        buildPart bmap w1 (clearCache b1) pt' true = .ok (s2, w2, b2) → s2 ≠ s1)
    ∧ (∀ s2 w2 b2,
        buildPart bmap w1 builderInit pt' true = .ok (s2, w2, b2) → s2 ≠ s1) := by
  obtain ⟨hc1, hbm1, hw⟩ := buildPart_cached_cache bmap w b pt s1 w1 b1 h1
  obtain ⟨hlt, hWF1⟩ := buildPart_cached_lt bmap w b pt s1 w1 b1 hWF h1
  have hbm' : ndGet bmap pt' = ndGet bmap pt := by
    unfold ndGet
    rw [hnorm]
  have hc' : ndGet b1.cache pt' = some s1 := by
    unfold ndGet
    unfold ndGet at hc1
    rw [hnorm]
    exact hc1
  refine ⟨?_, ?_, ?_⟩
  · intro s2 w2 b2 h2
    unfold buildPart at h2
    cases hbm : ndGet bmap pt with
    | none => exact absurd hbm hbm1
    | some f =>
      rw [hbm', hbm] at h2
      simp only [if_true] at h2
      rw [hc'] at h2
      cases h2
      rfl
  · intro s2 w2 b2 h2
    unfold buildPart at h2
    cases hbm : ndGet bmap pt with
    | none => exact absurd hbm hbm1
    | some f =>
      rw [hbm', hbm] at h2
      simp only [if_true] at h2
      have hempty : ndGet (clearCache b1).cache pt' = none := rfl
      rw [hempty] at h2
      cases h2
      exact Nat.ne_of_gt hlt
  · intro s2 w2 b2 h2
    unfold buildPart at h2
    cases hbm : ndGet bmap pt with
    | none => exact absurd hbm hbm1
    | some f =>
      rw [hbm', hbm] at h2
      simp only [if_true] at h2
      have hempty : ndGet builderInit.cache pt' = none := rfl
      rw [hempty] at h2
      cases h2
      exact Nat.ne_of_gt hlt

/-- Witness for C8 on a concrete one-part builder: the repeat call returns the
same solid id, the clear-then-rebuild call a different one. -/
theorem buildPart_cache_contract_witness :
    (0 : Nat) = 0 ∧ (1 : Nat) ≠ 0 :=
  ⟨(buildPart_cache_contract bmapTop 0 builderInit "top" "TOP " 0 1 ⟨[("top", 0)]⟩
      (by intro p hp; cases hp) (by decide) rfl).1 0 1 ⟨[("top", 0)]⟩ rfl,
   (buildPart_cache_contract bmapTop 0 builderInit "top" "TOP " 0 1 ⟨[("top", 0)]⟩
      (by intro p hp; cases hp) (by decide) rfl).2.1 1 2 ⟨[("top", 1)]⟩ rfl⟩

/-! ## Claim theorems: inheritance-merged attribute resolution -/

/-- C6 (amended): when neither the subtype nor any ancestor provides a merged
collection attribute, `get_parent_items` yields `None` and subtype definition
proceeds with an empty collection instead of failing; the only
definition-time requirement of this kind is `BuilderClass`, whose absence (or
non-`BuilderABC` value) makes assembler subtype definition fail with an error
naming it. -/
theorem missing_attr_resolution (l : List (Option (NDict Nat)))
    (regs : List (String × Nat)) (nm : String)
    (declared : Option (List (String × String)))
    (parentMaps : List (Option (NDict String)))
    (h : ∀ m ∈ l, m = none) :
    getParentItems l = none
    ∧ (exOk (defineBuilder l regs)).isSome = true
    ∧ defineAssembler nm none declared parentMaps =
        .error (.missingBuilderClass nm) := by
  refine ⟨getParentItemsAux_all_none l none h, ?_, rfl⟩
  simp [defineBuilder, exOk]

/-- Witness for C6's amended theorem at a concrete MRO with no provider. -/
theorem missing_attr_resolution_witness :
    getParentItems ([none, none] : List (Option (NDict Nat))) = none
    ∧ defineAssembler "NoBuilder" none none [] =
        .error (.missingBuilderClass "NoBuilder") :=
  ⟨(missing_attr_resolution [none, none] [("side", 3)] "NoBuilder" none []
      (by decide)).1,
   (missing_attr_resolution [none, none] [("side", 3)] "NoBuilder" none []
      (by decide)).2.2⟩

/-- Counterexample to C6 as stated: a builder subtype with no registered build
methods whose ancestors never define `_builder_map` is defined successfully
with an empty registry — no configuration error is raised. -/
theorem builder_def_missing_everywhere_cex :
    defineBuilder ([none, none] : List (Option (NDict Nat))) [] = .ok [] := rfl

/-! ## Claim theorems: part-map validation (C3) -/

/-- C3: assembler subtype definition validates the resolved part map against
the builder's registered part-types: if every value is registered the
definition succeeds, otherwise it fails with a configuration error that names
the class and exactly the offending values.  Instances (`assemblerInit`) can
only be built from a successfully defined `AssemblerClass`, so the failure
precedes any instance. -/
theorem partmap_validation (nm : String) (bmap : NDict Nat)
    (declared : Option (List (String × String)))
    (parentMaps : List (Option (NDict String))) :
    ((∀ v ∈ valuesOf (resolvePartMap parentMaps bmap
          (normalizePartMap (declared.getD []))), v ∈ keysOf bmap) →
      defineAssembler nm (some bmap) declared parentMaps =
        .ok ⟨nm, bmap, resolvePartMap parentMaps bmap
          (normalizePartMap (declared.getD []))⟩)
    ∧ (∀ bad, defineAssembler nm (some bmap) declared parentMaps =
          .error (.invalidPartMapValues nm bad) →
        bad ≠ [] ∧ ∀ v ∈ bad,
          v ∈ valuesOf (resolvePartMap parentMaps bmap
            (normalizePartMap (declared.getD [])))
          ∧ v ∉ keysOf bmap)
    ∧ ((∃ v, v ∈ valuesOf (resolvePartMap parentMaps bmap
          (normalizePartMap (declared.getD []))) ∧ v ∉ keysOf bmap) →
        ∃ bad, bad ≠ [] ∧ defineAssembler nm (some bmap) declared parentMaps =
          .error (.invalidPartMapValues nm bad)) := by
  have hdef : defineAssembler nm (some bmap) declared parentMaps =
      (if (((valuesOf (resolvePartMap parentMaps bmap
              (normalizePartMap (declared.getD [])))).dedup).filter
            (fun v => !((keysOf bmap).contains v))).isEmpty then
        .ok ⟨nm, bmap, resolvePartMap parentMaps bmap
          (normalizePartMap (declared.getD []))⟩
      else
        .error (.invalidPartMapValues nm
          (((valuesOf (resolvePartMap parentMaps bmap
              (normalizePartMap (declared.getD [])))).dedup).filter
            (fun v => !((keysOf bmap).contains v))))) := rfl
  refine ⟨?_, ?_, ?_⟩
  · intro hv
    have hnil : (((valuesOf (resolvePartMap parentMaps bmap
        (normalizePartMap (declared.getD [])))).dedup).filter
          (fun v => !((keysOf bmap).contains v))) = [] := by
      rw [List.filter_eq_nil_iff]
      intro a ha
      have hk := hv a (List.mem_dedup.mp ha)
      simp only [Bool.not_eq_true', Bool.not_eq_false]
      exact List.elem_iff.mpr hk
    rw [hdef, hnil]
    rfl
  · intro bad heq
    rw [hdef] at heq
    split at heq
    · cases heq
    · rename_i hne
      have hbadeq : (((valuesOf (resolvePartMap parentMaps bmap
          (normalizePartMap (declared.getD [])))).dedup).filter
            (fun v => !((keysOf bmap).contains v))) = bad := by
        cases heq
        rfl
      subst hbadeq
      refine ⟨?_, ?_⟩
      · intro hnil
        rw [hnil] at hne
        exact hne rfl
      · intro v hvmem
        obtain ⟨h1, h2⟩ := List.mem_filter.mp hvmem
        refine ⟨List.mem_dedup.mp h1, fun hmem => ?_⟩
        rw [Bool.not_eq_true'] at h2
        have hc : (keysOf bmap).contains v = true := List.elem_iff.mpr hmem
        rw [hc] at h2
        cases h2
  · rintro ⟨v, hvmem, hvnot⟩
    have hvbad : v ∈ (((valuesOf (resolvePartMap parentMaps bmap
        (normalizePartMap (declared.getD [])))).dedup).filter
          (fun v => !((keysOf bmap).contains v))) := by
      refine List.mem_filter.mpr ⟨List.mem_dedup.mpr hvmem, ?_⟩
      rw [Bool.not_eq_true']
      exact Bool.eq_false_iff.mpr (fun hc => hvnot (List.elem_iff.mp hc))
    have hne : (((valuesOf (resolvePartMap parentMaps bmap
        (normalizePartMap (declared.getD [])))).dedup).filter
          (fun v => !((keysOf bmap).contains v))) ≠ [] :=
      List.ne_nil_of_mem hvbad
    refine ⟨_, hne, ?_⟩
    rw [hdef]
    rw [if_neg ?_]
    intro hemp
    exact hne (List.isEmpty_iff.mp hemp)

/-- Witness for C3: a valid part map is accepted, a part map whose value `"b"`
is not a registered part-type of the one-part builder is rejected with an
error naming exactly `"b"`. -/
theorem partmap_validation_witness :
    defineAssembler "GoodAsm" (some bmapTop) (some [("p", "top")]) [] =
      .ok ⟨"GoodAsm", bmapTop, resolvePartMap [] bmapTop
        (normalizePartMap [("p", "top")])⟩
    ∧ ∃ bad, bad ≠ [] ∧ defineAssembler "BadAsm" (some bmapTop)
        (some [("p", "b")]) [] = .error (.invalidPartMapValues "BadAsm" bad) :=
  ⟨(partmap_validation "GoodAsm" bmapTop (some [("p", "top")]) []).1 (by decide),
   (partmap_validation "BadAsm" bmapTop (some [("p", "b")]) []).2.2
      ⟨"b", by decide, by decide⟩⟩

/-! ## Claim theorems: part-map resolution (C2) -/

/-- C2 (amended): with a non-empty declared (normalized) `part_map`, the
resolved map is the inherited map merged with the declared one, declared
entries winning; with no declared `part_map` — or a declared *empty* one,
which the truthiness test `if part_map:` cannot distinguish — the resolved
map keeps every inherited entry and adds an identity entry for every builder
part-type that is neither a value nor a key of the inherited map. -/
theorem resolvePartMap_characterization
    (parentMaps : List (Option (NDict String))) (bmap : NDict Nat)
    (pm : NDict String) (k : String)
    (hpar : ∀ m, some m ∈ parentMaps → (keysOf m).Nodup)
    (hpm : (keysOf pm).Nodup)
    (hbn : ∀ x ∈ keysOf bmap, normKey x = x) :
    (pm ≠ [] →
      lookupA (resolvePartMap parentMaps bmap pm) k =
        orO (lookupA pm k)
          (lookupA ((getParentItems parentMaps).getD []) k))
    ∧ (pm = [] →
      lookupA (resolvePartMap parentMaps bmap pm) k =
        orO (lookupA ((getParentItems parentMaps).getD []) k)
          (if k ∈ keysOf bmap ∧
              k ∉ valuesOf ((getParentItems parentMaps).getD [])
           then some k else none)) := by
  have hparN : (keysOf ((getParentItems parentMaps).getD [])).Nodup := by
    cases hg : getParentItems parentMaps with
    | none => simp [keysOf]
    | some m => exact getParentItems_nodup parentMaps hpar m hg
  constructor
  · intro hne
    have hemp : pm.isEmpty = false := by
      cases pm with
      | nil => exact absurd rfl hne
      | cons p rest => rfl
    unfold resolvePartMap
    rw [hemp]
    simp only [Bool.false_eq_true, if_false]
    exact lookupA_ndUnion pm k ((getParentItems parentMaps).getD []) hpm
  · intro he
    subst he
    unfold resolvePartMap
    simp only [List.isEmpty_nil, if_true]
    rw [lookupA_ndUnion ((getParentItems parentMaps).getD []) k _ hparN]
    have hxs : ∀ x ∈ (keysOf bmap).filter
        (fun pt => !((valuesOf ((getParentItems parentMaps).getD [])).contains pt)),
        normKey x = x :=
      fun x hx => hbn x (List.mem_filter.mp hx).1
    rw [lookupA_identMap _ k hxs]
    have hcond : (k ∈ (keysOf bmap).filter
        (fun pt => !((valuesOf ((getParentItems parentMaps).getD [])).contains pt)))
        ↔ (k ∈ keysOf bmap ∧
            k ∉ valuesOf ((getParentItems parentMaps).getD [])) := by
      constructor
      · intro hx
        obtain ⟨h1, h2⟩ := List.mem_filter.mp hx
        rw [Bool.not_eq_true'] at h2
        refine ⟨h1, fun hmem => ?_⟩
        have hc : (valuesOf ((getParentItems parentMaps).getD [])).contains k = true :=
          List.elem_iff.mpr hmem
        rw [hc] at h2
        cases h2
      · rintro ⟨h1, h2⟩
        refine List.mem_filter.mpr ⟨h1, ?_⟩
        rw [Bool.not_eq_true']
        exact Bool.eq_false_iff.mpr (fun hc => h2 (List.elem_iff.mp hc))
    exact congrArg (orO _) (if_congr hcond rfl rfl)

/-- Witness for C2's amended theorem: a child declaring `part_map = {p2: b}`
over a parent resolved to `{p: a}` and a child declaring nothing, evaluated at
concrete keys. -/
theorem resolvePartMap_characterization_witness :
    lookupA (resolvePartMap [some [("p", "a")]] bmapAB [("p2", "b")]) "p2" =
      orO (lookupA [("p2", "b")] "p2")
        (lookupA ((getParentItems [some [("p", "a")]]).getD []) "p2")
    ∧ lookupA (resolvePartMap [some [("p", "a")]] bmapAB []) "b" =
      orO (lookupA ((getParentItems [some [("p", "a")]]).getD []) "b")
        (if "b" ∈ keysOf bmapAB ∧
            "b" ∉ valuesOf ((getParentItems [some [("p", "a")]]).getD [])
         then some "b" else none) :=
  ⟨(resolvePartMap_characterization [some [("p", "a")]] bmapAB [("p2", "b")] "p2"
      (by intro m hm; simp only [List.mem_singleton, Option.some.injEq] at hm;
          subst hm; decide)
      (by decide) (by decide)).1 (by decide),
   (resolvePartMap_characterization [some [("p", "a")]] bmapAB [] "b"
      (by intro m hm; simp only [List.mem_singleton, Option.some.injEq] at hm;
          subst hm; decide)
      (by decide) (by decide)).2 rfl⟩

/-- Counterexample to C2 as stated: a subtype that *declares* its own
`part_map` — the empty dict — does not resolve to the ancestor map merged with
`{}` (which would be `{p: a}`): the code's truthiness test treats the declared
empty map as absent and adds the identity entry `b ↦ b`. -/
theorem declared_empty_partmap_cex :
    exOk (defineAssembler "Child" (some bmapAB) (some []) [some [("p", "a")]]) =
      some ⟨"Child", bmapAB, [("b", "b"), ("p", "a")]⟩
    ∧ lookupA (ndUnion [("p", "a")] (normalizePartMap [])) "b" = none :=
  ⟨rfl, rfl⟩

/-! ## Claim theorems: `assemble` (C1, C9) -/

/-- C1 (amended): for a single requested part, `assemble` fails with a
`KeyError` naming the normalized part exactly when the *resolved part map* has
no entry for it; a missing entry in the combined metadata map does not fail —
the part is assembled with the default name (`part.title().replace("_", " ")`)
and the assembler's color. -/
theorem assemble_part_lookup (A : AssemblerInst) (w : Nat) (p : String) :
    (ndGet A.cls.resolvedPartMap p = none →
      assemble A w (some [p]) = .error (.keyError (normKey p)))
    ∧ (∀ pt s w1 b1, ndGet (getResolvedMetadataMap A) p = none →
        ndGet A.cls.resolvedPartMap p = some pt →
        buildPart A.cls.builderMap w A.builder pt true = .ok (s, w1, b1) →
        assemble A w (some [p]) =
          .ok ([(s, [("name", .str (defaultName p)), ("color", A.color)])],
            w1, b1)) := by
  have hsel : assemblyPartsSel A.cls.resolvedPartMap (some [p]) = [p] := by
    simp [assemblyPartsSel]
  constructor
  · intro hnone
    unfold assemble
    rw [hsel]
    unfold getAssemblyDataAux
    rw [hnone]
  · intro pt s w1 b1 hmeta hsome hbuild
    unfold assemble
    rw [hsel]
    unfold getAssemblyDataAux
    simp only [hsome, hbuild]
    simp only [getAssemblyDataAux]
    simp [partMetadata, hmeta, setdefaultD, lookupA, insertA]

/-- Witness for C1's amended theorem: the concrete one-part assembler rejects
the unknown part `lid` with a `KeyError` naming it. -/
theorem assemble_part_lookup_witness :
    assemble asmInstTop 0 (some ["lid"]) = .error (.keyError "lid") :=
  (assemble_part_lookup asmInstTop 0 "lid").1 (by decide)

/-- Counterexample to C1 as stated: the combined ancestry-merged metadata map
of the concrete assembler has no entry for `top`, yet `assemble(["top"])`
succeeds (with defaulted metadata) instead of failing with a not-found error
naming `top`. -/
theorem assemble_missing_metadata_ok_cex :
    ndGet (getResolvedMetadataMap asmInstTop) "top" = none
    ∧ assemble asmInstTop 0 (some ["top"]) =
        .ok ([(0, [("name", .str "Top"), ("color", .str "burlywood")])],
          1, ⟨[("top", 0)]⟩) :=
  ⟨rfl, rfl⟩

/-- C9 (amended): when `parts` is a non-empty list, a successful `assemble`
produces exactly one `(solid, metadata)` pair per distinct given identifier —
distinct as given, before normalization — and every given identifier is a key
of the resolved part map; when `parts` is omitted, a successful `assemble`
produces one pair per key of the resolved part map.  (An *empty* list is
falsy in Python and selects every key, like omission.) -/
theorem assemble_parts_selection (A : AssemblerInst) (w : Nat) :
    (∀ l data w1 b1, l ≠ [] →
        assemble A w (some l) = .ok (data, w1, b1) →
        data.length = l.dedup.length
        ∧ ∀ p ∈ l, (ndGet A.cls.resolvedPartMap p).isSome = true)
    ∧ (∀ data w1 b1, assemble A w none = .ok (data, w1, b1) →
        data.length = (keysOf A.cls.resolvedPartMap).length) := by
  constructor
  · intro l data w1 b1 hne hok
    have hsel : assemblyPartsSel A.cls.resolvedPartMap (some l) = l.dedup := by
      cases l with
      | nil => exact absurd rfl hne
      | cons a t => rfl
    unfold assemble at hok
    rw [hsel] at hok
    constructor
    · rw [gad_length _ _ _ _ _ _ _ _ _ _ hok]
    · intro p hp
      exact gad_found _ _ _ _ _ _ _ _ _ _ hok p (List.mem_dedup.mpr hp)
  · intro data w1 b1 hok
    unfold assemble at hok
    exact gad_length _ _ _ _ _ _ _ _ _ _ hok

/-- Witness for C9's amended theorem on the concrete two-part assembler with
the explicit parts `["a", "b"]`. -/
theorem assemble_parts_selection_witness :
    ([(0, [("name", Val.str "A"), ("color", Val.str "burlywood")]),
      (1, [("name", Val.str "B"), ("color", Val.str "burlywood")])] :
        List (Nat × Metadata)).length = (["a", "b"] : List String).dedup.length
    ∧ ∀ p ∈ (["a", "b"] : List String),
        (ndGet asmInstAB.cls.resolvedPartMap p).isSome = true :=
  (assemble_parts_selection asmInstAB 0).1 ["a", "b"]
    [(0, [("name", .str "A"), ("color", .str "burlywood")]),
     (1, [("name", .str "B"), ("color", .str "burlywood")])] 2
    ⟨[("a", 0), ("b", 1)]⟩ (by decide) rfl

/-- Counterexample to C9 as stated: on the concrete two-part assembler an
*empty* iterable of part identifiers assembles all 2 parts (not the 0 given
identifiers), and the two identifiers `"A "` and `"a"`, which normalize to the
same part, are assembled as 2 separate pairs — `assemble` does not use the
identifiers "after normalization". -/
theorem assemble_empty_iterable_cex :
    (exOk (assemble asmInstAB 0 (some []))).map (fun r => r.1.length) = some 2
    ∧ (exOk (assemble asmInstAB 0 (some ["A ", "a"]))).map
        (fun r => r.1.length) = some 2
    ∧ normKey "A " = normKey "a" :=
  ⟨rfl, rfl, rfl⟩

end PyCad
